import Mathlib

/-!
Verification of the fix-rs FIX/FIXT engine material: the message-type
dictionary (`src/dictionary/mod.rs`) and the test harness helpers
(`tests/common/mod.rs`), together with a wire codec modelled from the
specification for the parts of the engine whose sources are external.

Bytes are modelled as natural numbers (`Nat`), byte strings as `List Nat`.
All definitions are executable.
-/

namespace FixRs

/-- ASCII code of the SOH (start-of-header, 0x01) field delimiter. -/
def sohByte : Nat := 1

/-- ASCII code of the equals sign separating a tag from its value. -/
def eqByte : Nat := 61

/-- Is the byte an ASCII decimal digit. -/
def isDigitByte (b : Nat) : Bool := 48 ≤ b && b ≤ 57

/-- Little-endian ASCII decimal digit expansion, fuel-based so that it is
structurally recursive and computes by `rfl`. -/
def natDigitsAux : Nat → Nat → List Nat
  | 0, _ => []
  | _, 0 => []
  | fuel+1, n+1 => ((n + 1) % 10 + 48) :: natDigitsAux fuel ((n + 1) / 10)

/-- ASCII decimal representation of a natural number, most significant
digit first (empty for 0, which never occurs on valid tags or lengths). -/
def natToDigits (n : Nat) : List Nat := (natDigitsAux n n).reverse

/-- Value of a little-endian ASCII digit list. -/
def leVal : List Nat → Nat
  | [] => 0
  | d :: ds => (d - 48) + 10 * leVal ds

/-- Decode an ASCII digit string, most significant digit first. -/
def digitsToNat (ds : List Nat) : Nat := ds.foldl (fun a d => 10 * a + (d - 48)) 0

/-- Split a byte list at the first occurrence of the byte `b`; returns the
part before `b` and the part after it, or `none` when `b` is absent. -/
def splitAtByte (b : Nat) : List Nat → Option (List Nat × List Nat)
  | [] => none
  | x :: xs =>
    if x = b then some ([], xs)
    else match splitAtByte b xs with
      | none => none
      | some (v, rest) => some (x :: v, rest)

/-- A FIX field: a numeric tag paired with a raw byte value. -/
structure Field where
  tag : Nat
  value : List Nat
  deriving DecidableEq, Repr

/-- A decoded FIX message: its message-type token and its body fields
(excluding the framing fields 8, 9, 35 and 10). -/
structure Message where
  msgType : List Nat
  fields : List Field
  deriving DecidableEq, Repr

/-- The FIX protocol versions declared by fix-rs (`FIXVersion`). -/
inductive FIXVersion where
  | FIX_4_0 | FIX_4_1 | FIX_4_2 | FIX_4_3 | FIX_4_4 | FIXT_1_1
  deriving DecidableEq, Repr

/-- The application message versions declared by fix-rs (`MessageVersion`). -/
inductive MessageVersion where
  | FIX40 | FIX41 | FIX42 | FIX43 | FIX44 | FIX50 | FIX50SP1 | FIX50SP2
  deriving DecidableEq, Repr

/-- The BeginString (tag 8) byte value of each FIX protocol version. -/
def beginString : FIXVersion → List Nat
  | .FIX_4_0 => [70, 73, 88, 46, 52, 46, 48]
  | .FIX_4_1 => [70, 73, 88, 46, 52, 46, 49]
  | .FIX_4_2 => [70, 73, 88, 46, 52, 46, 50]
  | .FIX_4_3 => [70, 73, 88, 46, 52, 46, 51]
  | .FIX_4_4 => [70, 73, 88, 46, 52, 46, 52]
  | .FIXT_1_1 => [70, 73, 88, 84, 46, 49, 46, 49]

/-- Recognize a BeginString value, yielding the protocol version it names. -/
def versionOfBeginString (v : List Nat) : Option FIXVersion :=
  if v = beginString .FIX_4_0 then some .FIX_4_0
  else if v = beginString .FIX_4_1 then some .FIX_4_1
  else if v = beginString .FIX_4_2 then some .FIX_4_2
  else if v = beginString .FIX_4_3 then some .FIX_4_3
  else if v = beginString .FIX_4_4 then some .FIX_4_4
  else if v = beginString .FIXT_1_1 then some .FIXT_1_1
  else none

/-- Wire bytes of a single `tag=value` field, SOH-terminated. -/
def fieldBytes (tag : Nat) (value : List Nat) : List Nat :=
  natToDigits tag ++ eqByte :: value ++ [sohByte]

/-- Wire bytes of a list of fields. -/
def encodeFields (fs : List Field) : List Nat :=
  (fs.map fun f => fieldBytes f.tag f.value).flatten

/-- The body of a serialized message: the MsgType (tag 35) field followed by
the message's own fields.  BodyLength (tag 9) counts exactly these bytes. -/
def bodyBytes (m : Message) : List Nat :=
  fieldBytes 35 m.msgType ++ encodeFields m.fields

/-- Sum of a byte list (for the FIX checksum). -/
def sumBytes (l : List Nat) : Nat := l.foldl (· + ·) 0

/-- Three-digit zero-padded ASCII decimal of a checksum value below 256. -/
def checksum3 (c : Nat) : List Nat :=
  [c / 100 + 48, c / 10 % 10 + 48, c % 10 + 48]

/-- Modelled from the spec: `serialize(message, fix_version, message_version)
-> bytes_out` (the engine's encoder, driven by `FIXTMessage::read`, is not
part of the visible sources).  Header fields BeginString and BodyLength are
emitted first, the checksum is computed last over all preceding bytes, as a
3-digit zero-padded decimal of their sum modulo 256.  The message version
selects the field schema in the real engine; the model carries every field
of the message, so it does not alter the bytes. -/
def serialize (v : FIXVersion) (_mv : MessageVersion) (m : Message) : List Nat :=
  let body := bodyBytes m
  let pre := fieldBytes 8 (beginString v) ++ fieldBytes 9 (natToDigits body.length)
  let c := sumBytes (pre ++ body) % 256
  pre ++ body ++ fieldBytes 10 (checksum3 c)

/-- Result of scanning one `tag=value` field from the head of a stream. -/
inductive FieldResult where
  | ok (tag : Nat) (value : List Nat) (rest : List Nat)
  | incomplete
  | garbled
  deriving DecidableEq, Repr

/-- Scan one SOH-terminated `tag=value` field from the head of the input.
No SOH yet means the field has not fully arrived (`incomplete`); a missing
`=` or a non-numeric tag is structural corruption (`garbled`). -/
def parseField (input : List Nat) : FieldResult :=
  match splitAtByte sohByte input with
  | none => .incomplete
  | some (fb, rest) =>
    match splitAtByte eqByte fb with
    | none => .garbled
    | some (tagBytes, value) =>
      if tagBytes.isEmpty || !tagBytes.all isDigitByte then .garbled
      else .ok (digitsToNat tagBytes) value rest

/-- Scan a complete body into its fields; any malformed or truncated field
inside a complete, checksum-validated body is corruption (`none`). -/
def parseFieldsAux : Nat → List Nat → Option (List Field)
  | 0, input => if input.isEmpty then some [] else none
  | fuel+1, input =>
    if input.isEmpty then some []
    else match parseField input with
    | .ok t v rest =>
      match parseFieldsAux fuel rest with
      | none => none
      | some fs => some (⟨t, v⟩ :: fs)
    | _ => none

/-- Scan a complete body into its fields. -/
def parseFields (input : List Nat) : Option (List Field) :=
  parseFieldsAux input.length input

/-- The parse errors the modelled codec can report. -/
inductive ParseError where
  | garbled
  | unknownMessageType (tok : List Nat)
  deriving DecidableEq, Repr

/-- Result of attempting to decode one message from the head of the stream. -/
inductive ParseOnceResult where
  | msg (v : FIXVersion) (m : Message) (rest : List Nat)
  | incomplete
  | err (e : ParseError)
  deriving DecidableEq, Repr

/-- Modelled from the spec: decode one message from the head of the stream
(the engine's `Parser` internals are not part of the visible sources).
Scan the BeginString field, then BodyLength; once the body length is known,
wait until that many bytes plus the trailer are buffered; validate the
checksum over the raw bytes preceding the checksum field; resolve the
message type against the dictionary, reporting unknown tokens as
`ParseError::UnknownMessageType` with the raw token. -/
def parseOnce (dict : List (List Nat)) (input : List Nat) : ParseOnceResult :=
  match parseField input with
  | .incomplete => .incomplete
  | .garbled => .err .garbled
  | .ok t8 v8 r1 =>
    if t8 ≠ 8 then .err .garbled
    else match versionOfBeginString v8 with
    | none => .err .garbled
    | some fixv =>
      match parseField r1 with
      | .incomplete => .incomplete
      | .garbled => .err .garbled
      | .ok t9 v9 r2 =>
        if t9 ≠ 9 then .err .garbled
        else if v9.isEmpty || !v9.all isDigitByte then .err .garbled
        else
          let bodyLen := digitsToNat v9
          if r2.length < bodyLen then .incomplete
          else
            let body := r2.take bodyLen
            let rest := r2.drop bodyLen
            match parseField rest with
            | .incomplete => .incomplete
            | .garbled => .err .garbled
            | .ok t10 v10 rest2 =>
              if t10 ≠ 10 then .err .garbled
              else if v10.length ≠ 3 || v10.isEmpty || !v10.all isDigitByte then .err .garbled
              else if sumBytes (input.take (input.length - rest.length)) % 256 ≠ digitsToNat v10 then
                .err .garbled
              else match parseFields body with
              | none => .err .garbled
              | some [] => .err .garbled
              | some (f35 :: fs) =>
                if f35.tag ≠ 35 then .err .garbled
                else if f35.value ∈ dict then .msg fixv ⟨f35.value, fs⟩ rest2
                else .err (.unknownMessageType f35.value)

/-- The modelled incremental parser state: the message dictionary's key set,
the buffer of bytes not yet resolved into a message, and the ready-queue of
decoded messages (`parser.messages` in the harness). -/
structure Parser where
  dict : List (List Nat)
  buffer : List Nat
  messages : List Message
  deriving DecidableEq, Repr

/-- Extract as many complete messages as possible from the head of the
combined buffer.  Returns the decoded messages in order, the unresolved
leftover bytes, and the error that stopped extraction, if any. -/
def parseLoop (dict : List (List Nat)) : Nat → List Nat → List Message × List Nat × Option ParseError
  | 0, input => ([], input, none)
  | fuel+1, input =>
    match parseOnce dict input with
    | .incomplete => ([], input, none)
    | .err e => ([], input, some e)
    | .msg _ m rest =>
      match parseLoop dict fuel rest with
      | (ms, leftover, e) => (m :: ms, leftover, e)

/-- Modelled from the spec: `parse(bytes_in) -> (bytes_consumed, Result)`,
appending fully decoded messages to the internal ready-queue and buffering
any incomplete suffix.  On success every input byte is either resolved into
a message or retained in the buffer, so it counts as consumed; on error the
bytes from the start of the offending data onward are not consumed. -/
def Parser.parse (st : Parser) (input : List Nat) : Parser × Nat × Option ParseError :=
  let combined := st.buffer ++ input
  match parseLoop st.dict (combined.length + 1) combined with
  | (ms, leftover, none) =>
    ({ st with buffer := leftover, messages := st.messages ++ ms },
      combined.length - st.buffer.length, none)
  | (ms, leftover, some e) =>
    ({ st with buffer := leftover, messages := st.messages ++ ms },
      combined.length - st.buffer.length - leftover.length, some e)

/-- A socket read in the harness: each element is the chunk of bytes one
successful `stream.read` call returns before the timeout elapses. -/
abbrev Chunk := List Nat

/-- The read-and-parse loop of `try_recv_fixt_message`: read a chunk, feed
it to the parser, return `None` on a parse error, otherwise pop the front
of the ready-queue as soon as it is non-empty; an exhausted chunk list is
the timeout.  Returns the result, the parser state left behind, and the
chunks not yet read. -/
def tryRecvAux : Parser → List Chunk → Option Message × Parser × List Chunk
  | st, [] => (none, st, [])
  | st, c :: rest =>
    match Parser.parse st c with
    | (st2, _, some _) => (none, st2, rest)
    | (st2, _, none) =>
      match st2.messages with
      | [] => tryRecvAux st2 rest
      | m :: ms => (some m, { st2 with messages := ms }, rest)

/-- `try_recv_fixt_message`: if the parser's ready-queue is non-empty,
remove and return its front element without touching the socket; otherwise
enter the read-and-parse loop. -/
def tryRecvFixtMessage (st : Parser) (chunks : List Chunk) :
    Option Message × Parser × List Chunk :=
  match st.messages with
  | m :: ms => (some m, { st with messages := ms }, chunks)
  | [] => tryRecvAux st chunks

/-- A field is serializable when its tag is a real FIX tag (positive) and
its value contains no SOH delimiter. -/
def ValidField (f : Field) : Prop := 0 < f.tag ∧ sohByte ∉ f.value

/-- A message has a valid field set when its type token and every field
value are SOH-free. -/
def ValidMessage (m : Message) : Prop :=
  sohByte ∉ m.msgType ∧ ∀ f ∈ m.fields, ValidField f

instance : DecidablePred ValidField := fun f => by
  unfold ValidField; infer_instance

instance : DecidablePred ValidMessage := fun m => by
  unfold ValidMessage; infer_instance

/-- Outcome of one `stream.write` attempt inside the send loop. -/
inductive WriteResult where
  | wrote (n : Nat)
  | wouldBlock
  | fatal
  deriving DecidableEq, Repr

/-- One iteration of the send loop's environment: whether `now.elapsed() >
timeout` held at the loop head, and what the `stream.write` call returned. -/
structure SendStep where
  timedOut : Bool
  write : WriteResult
  deriving DecidableEq, Repr

/-- The write loop of `send_message_with_timeout`, instrumented with the
`bytes_written_total` counter.  While fewer than `total` bytes are written:
return `Err(total - written)` when the timeout has elapsed, add the bytes a
successful write reports, retry on `WouldBlock`, and stop without a result
on any other write error (the harness panics there).  An exhausted step
list with bytes still unwritten is a loop that never terminated. -/
def sendLoop (total : Nat) : List SendStep → Nat → Option (Except Nat Unit) × Nat
  | [], written => (if total ≤ written then some (.ok ()) else none, written)
  | s :: rest, written =>
    if total ≤ written then (some (.ok ()), written)
    else if s.timedOut then (some (.error (total - written)), written)
    else match s.write with
      | .wrote n => sendLoop total rest (written + n)
      | .wouldBlock => sendLoop total rest written
      | .fatal => (none, written)

/-- `send_message_with_timeout`: serialize the message, then run the write
loop starting from zero bytes written. -/
def send_message_with_timeout (v : FIXVersion) (mv : MessageVersion) (m : Message)
    (steps : List SendStep) : Option (Except Nat Unit) × Nat :=
  sendLoop (serialize v mv m).length steps 0

/-- A boxed message as the `FIXTMessage` trait object of the dictionary: the
Rust concrete type backing it (what `as_any().is::<M>()` inspects) and its
mutable field state (empty in a default-constructed instance). -/
structure MsgBox where
  concreteType : String
  state : List Field
  deriving DecidableEq, Repr

/-- The `message_to_enum` function generated by `define_dictionary!`: walk
the declared types in order, returning the variant wrapping the message for
the first declared type matching the message's concrete type; falling off
the chain reaches `panic!("Unsupported message")`, modelled as `none`. -/
def message_to_enum : List String → MsgBox → Option (String × MsgBox)
  | [], _ => none
  | t :: ts, message =>
    if message.concreteType = t then some (t, message) else message_to_enum ts message

/-- `HashMap::insert` on an association list: overwrite the entry holding
the key if present, else append a fresh entry. -/
def insertMap {α β : Type} [DecidableEq α] : List (α × β) → α → β → List (α × β)
  | [], k, v => [(k, v)]
  | kv :: rest, k, v => if kv.1 = k then (k, v) :: rest else kv :: insertMap rest k v

/-- `HashMap::get` on an association list. -/
def lookupMap {α β : Type} [DecidableEq α] : List (α × β) → α → Option β
  | [], _ => none
  | kv :: rest, k => if kv.1 = k then some kv.2 else lookupMap rest k

/-- A message type declared to `define_dictionary!`: the Rust type's name
and its `MessageDetails::msg_type()` token. -/
structure MsgDecl where
  name : String
  msgTypeTok : List Nat
  deriving DecidableEq, Repr

/-- `Box::new(<$msg as Default>::default())`: a default-constructed boxed
instance of the declared type, with empty field state. -/
def defaultBox (d : MsgDecl) : MsgBox := ⟨d.name, []⟩

/-- The `build_dictionary()` generated by `define_dictionary!`: starting
from an empty map, insert each declared type's default prototype under its
`msg_type()` token, in declaration order. -/
def build_dictionary (decls : List MsgDecl) : List (List Nat × MsgBox) :=
  decls.foldl (fun acc d => insertMap acc d.msgTypeTok (defaultBox d)) []

/-- Modelled from the spec: `FIXTMessage::new_into_box` (the `FIXTMessage`
trait lives outside the visible sources) — construct a fresh boxed
default instance of the same concrete type as the given message. -/
def new_into_box (b : MsgBox) : MsgBox := ⟨b.concreteType, []⟩

/-- `CloneDictionary::clone`: build a new map holding, for every
`(key, value)` entry of the original, `key` mapped to
`new_into_box(value)`.  The receiver is a shared `&self` borrow; the
function only reads `d`. -/
def cloneDictionary (d : List (List Nat × MsgBox)) : List (List Nat × MsgBox) :=
  d.foldl (fun acc kv => insertMap acc kv.1 (new_into_box kv.2)) []

/-- The explicit-state form of `CloneDictionary::clone`: the `&self`
dictionary comes back untouched next to the freshly built result. -/
def cloneCall (d : List (List Nat × MsgBox)) :
    List (List Nat × MsgBox) × List (List Nat × MsgBox) :=
  (d, cloneDictionary d)

/-- `standard_msg_types()`: the token list inserted into the `HashSet`, in
source order (`src/dictionary/mod.rs` lines 71-188), including the
duplicated `b"CD"` insert on lines 139-140.  Set membership of the
`HashSet` coincides with list membership. -/
def standard_msg_types : List String :=
  ["0", "1", "2", "3", "4", "5", "6", "7", "8", "9", "A",
   "AA", "AB", "AC", "AD", "AE", "AF", "AG", "AH", "AI", "AJ", "AK", "AL",
   "AM", "AN", "AO", "AP", "AQ", "AR", "AS", "AT", "AU", "AV", "AW", "AX",
   "AY", "AZ", "B",
   "BA", "BB", "BC", "BD", "BE", "BF", "BG", "BH", "BI", "BJ", "BK", "BL",
   "BM", "BN", "BO", "BP", "BQ", "BR", "BS", "BT", "BU", "BV", "BW", "BX",
   "BY", "BZ", "C",
   "CA", "CB", "CC", "CD", "CD", "CF", "CG",
   "D", "E", "F", "G", "H", "J", "K", "L", "M", "N", "P", "Q", "R", "S",
   "T", "V", "W", "X", "Y", "Z",
   "a", "b", "c", "d", "e", "f", "g", "h", "i", "j", "k", "l", "m", "n",
   "o", "p", "q", "r", "s", "t", "u", "v", "w", "x", "y", "z"]

/-- Modelled from the spec: the `EncryptMethod` field type (defined in the
dictionary's field-type module, outside the visible sources).  The harness
only distinguishes `None` from the rest. -/
inductive EncryptMethod where
  | None
  | PKCS
  | DES
  | PGP
  deriving DecidableEq, Repr

/-- The Logon message as the harness uses it: the FIXT session header
fields it sets plus the three Logon body fields it assigns. -/
structure Logon where
  msg_seq_num : Nat
  sender_comp_id : List Nat
  target_comp_id : List Nat
  encrypt_method : EncryptMethod
  heart_bt_int : Int
  default_appl_ver_id : MessageVersion
  deriving DecidableEq, Repr

/-- Modelled from the spec: `Logon::new()` default-constructs an empty
message (concrete defaults are outside the visible sources; every field the
claims inspect is overwritten by the harness before use). -/
def Logon.new : Logon := ⟨0, [], [], .None, 0, .FIX50⟩

/-- `CLIENT_TARGET_COMP_ID`, the bytes of "TX" (Test Exchange). -/
def CLIENT_TARGET_COMP_ID : List Nat := [84, 88]

/-- `CLIENT_SENDER_COMP_ID`, the bytes of "TEST". -/
def CLIENT_SENDER_COMP_ID : List Nat := [84, 69, 83, 84]

/-- `SERVER_TARGET_COMP_ID = CLIENT_SENDER_COMP_ID`. -/
def SERVER_TARGET_COMP_ID : List Nat := CLIENT_SENDER_COMP_ID

/-- `SERVER_SENDER_COMP_ID = CLIENT_TARGET_COMP_ID`. -/
def SERVER_SENDER_COMP_ID : List Nat := CLIENT_TARGET_COMP_ID

/-- Modelled from the spec: `setup_fixt_session_header` (defined on the
`FIXTMessage` trait outside the visible sources) stores the given sequence
number, sender comp id and target comp id into the session header. -/
def Logon.setup_fixt_session_header (m : Logon) (seq : Option Nat)
    (sender target : List Nat) : Logon :=
  { m with
    msg_seq_num := seq.getD m.msg_seq_num,
    sender_comp_id := sender,
    target_comp_id := target }

/-- `new_fixt_message!(Logon)`: a fresh Logon whose session header carries
sequence number 1 and the from-server comp ids. -/
def new_fixt_message_Logon : Logon :=
  Logon.new.setup_fixt_session_header (some 1) SERVER_SENDER_COMP_ID SERVER_TARGET_COMP_ID

/-- `new_logon_message()` from the harness. -/
def new_logon_message : Logon :=
  { new_fixt_message_Logon with
    encrypt_method := .None,
    heart_bt_int := 5,
    default_appl_ver_id := .FIX50SP2 }

/-- A two-type dictionary key set for concrete evaluations. -/
def sampleDict : List (List Nat) := [[65], [48]]

/-- A concrete message with type token "A" and two body fields. -/
def sampleMessage : Message := ⟨[65], [⟨49, [84, 88]⟩, ⟨56, [53]⟩]⟩

/-- A fresh parser over `sampleDict`. -/
def sampleParser : Parser := ⟨sampleDict, [], []⟩

/-- A parser whose dictionary does not contain `sampleMessage`'s token. -/
def otherDictParser : Parser := ⟨[[48]], [], []⟩

/-- A complete field with an unrecognized BeginString: `8=X` SOH. -/
def garbledTail : List Nat := [56, 61, 88, 1]

/-- A socket chunk carrying one valid message followed by garbled bytes. -/
def sampleChunk : Chunk := serialize .FIXT_1_1 .FIX50SP2 sampleMessage ++ garbledTail

/-- The parser state `sampleParser` reaches after parsing `sampleChunk`:
the valid message queued, the garbled suffix left unconsumed. -/
def sampleParserAfterError : Parser := ⟨sampleDict, garbledTail, [sampleMessage]⟩

/-- Two distinct queued messages for ready-queue evaluations. -/
def msgA : Message := ⟨[48], []⟩

/-- Second queued message. -/
def msgB : Message := ⟨[49], [⟨112, [65]⟩]⟩

/-- A parser whose ready-queue already holds two messages. -/
def queuedParser : Parser := ⟨sampleDict, [], [msgA, msgB]⟩

/-- A concrete two-entry message dictionary, one entry with field state. -/
def sampleBoxDict : List (List Nat × MsgBox) :=
  [([65], ⟨"Logon", [⟨108, [50]⟩]⟩), ([48], ⟨"Heartbeat", []⟩)]

end FixRs

namespace FixRs

theorem leVal_natDigitsAux (fuel : Nat) : ∀ n : Nat, n ≤ fuel → leVal (natDigitsAux fuel n) = n := by
  induction fuel with
  | zero =>
    intro n hn
    interval_cases n
    simp [natDigitsAux, leVal]
  | succ fuel ih =>
    intro n hn
    cases n with
    | zero => simp [natDigitsAux, leVal]
    | succ m =>
      have hdiv : (m + 1) / 10 ≤ fuel := by
        have : (m + 1) / 10 < m + 1 := Nat.div_lt_self (Nat.succ_pos m) (by omega)
        omega
      simp only [natDigitsAux, leVal, ih _ hdiv]
      omega

theorem natDigitsAux_digits (fuel : Nat) :
    ∀ n d : Nat, d ∈ natDigitsAux fuel n → 48 ≤ d ∧ d ≤ 57 := by
  induction fuel with
  | zero =>
    intro n d hd
    simp [natDigitsAux] at hd
  | succ fuel ih =>
    intro n d hd
    cases n with
    | zero => simp [natDigitsAux] at hd
    | succ m =>
      simp only [natDigitsAux, List.mem_cons] at hd
      rcases hd with h | h
      · have : (m + 1) % 10 < 10 := Nat.mod_lt _ (by omega)
        omega
      · exact ih _ _ h

theorem digitsToNat_reverse (ds : List Nat) :
    ∀ a : Nat, List.foldl (fun a d => 10 * a + (d - 48)) a ds.reverse
      = a * 10 ^ ds.length + leVal ds := by
  induction ds with
  | nil => intro a; simp [leVal]
  | cons d ds ih =>
    intro a
    simp only [List.reverse_cons, List.foldl_append, List.foldl_cons, List.foldl_nil,
      ih a, leVal, List.length_cons]
    ring

/-- Decimal round-trip: decoding the digits of `n` gives back `n`. -/
theorem digitsToNat_natToDigits (n : Nat) : digitsToNat (natToDigits n) = n := by
  unfold digitsToNat natToDigits
  rw [digitsToNat_reverse]
  simp [leVal_natDigitsAux n n le_rfl]

theorem natToDigits_digits {n d : Nat} (hd : d ∈ natToDigits n) : 48 ≤ d ∧ d ≤ 57 := by
  unfold natToDigits at hd
  rw [List.mem_reverse] at hd
  exact natDigitsAux_digits n n d hd

theorem natToDigits_ne_nil {n : Nat} (hn : 0 < n) : natToDigits n ≠ [] := by
  cases n with
  | zero => omega
  | succ m =>
    unfold natToDigits natDigitsAux
    simp

theorem sohByte_not_mem_natToDigits {n : Nat} : sohByte ∉ natToDigits n := by
  intro h
  have := natToDigits_digits h
  simp [sohByte] at this

theorem eqByte_not_mem_natToDigits {n : Nat} : eqByte ∉ natToDigits n := by
  intro h
  have := natToDigits_digits h
  simp [eqByte] at this

theorem natToDigits_all_isDigit (n : Nat) : (natToDigits n).all isDigitByte = true := by
  rw [List.all_eq_true]
  intro d hd
  have := natToDigits_digits hd
  simp [isDigitByte]
  omega

theorem splitAtByte_append {b : Nat} (v : List Nat) (rest : List Nat) (hb : b ∉ v) :
    splitAtByte b (v ++ b :: rest) = some (v, rest) := by
  induction v with
  | nil => simp [splitAtByte]
  | cons x xs ih =>
    simp only [List.mem_cons, not_or] at hb
    simp only [List.cons_append, splitAtByte]
    rw [if_neg (fun hx => hb.1 hx.symm)]
    simp only [List.append_eq]
    rw [ih hb.2]

theorem splitAtByte_length {b : Nat} :
    ∀ {l v rest : List Nat}, splitAtByte b l = some (v, rest) → rest.length < l.length := by
  intro l
  induction l with
  | nil => intro v rest h; simp [splitAtByte] at h
  | cons x xs ih =>
    intro v rest h
    simp only [splitAtByte] at h
    by_cases hx : x = b
    · rw [if_pos hx] at h
      cases h
      simp
    · rw [if_neg hx] at h
      cases hsplit : splitAtByte b xs with
      | none => rw [hsplit] at h; cases h
      | some p =>
        rw [hsplit] at h
        obtain ⟨v', rest'⟩ := p
        simp only [Option.some.injEq, Prod.mk.injEq] at h
        obtain ⟨h1, h2⟩ := h
        subst h2
        have := ih hsplit
        simp only [List.length_cons]
        omega

theorem parseField_bytes (t : Nat) (v rest : List Nat) (ht : 0 < t) (hv : sohByte ∉ v) :
    parseField (fieldBytes t v ++ rest) = .ok t v rest := by
  have hform : fieldBytes t v ++ rest
      = (natToDigits t ++ eqByte :: v) ++ sohByte :: rest := by
    simp [fieldBytes]
  have hnotin : sohByte ∉ natToDigits t ++ eqByte :: v := by
    intro h
    rcases List.mem_append.mp h with h | h
    · exact sohByte_not_mem_natToDigits h
    · rcases List.mem_cons.mp h with h | h
      · simp [sohByte, eqByte] at h
      · exact hv h
  have hne : (natToDigits t).isEmpty = false :=
    List.isEmpty_eq_false.mpr (natToDigits_ne_nil ht)
  simp only [parseField, hform, splitAtByte_append _ _ hnotin,
    splitAtByte_append _ _ (@eqByte_not_mem_natToDigits t), hne,
    natToDigits_all_isDigit, digitsToNat_natToDigits]
  simp

theorem parseField_ok_length {input : List Nat} {t : Nat} {v rest : List Nat}
    (h : parseField input = .ok t v rest) : rest.length < input.length := by
  unfold parseField at h
  cases h1 : splitAtByte sohByte input with
  | none => simp only [h1] at h; exact FieldResult.noConfusion h
  | some p =>
    obtain ⟨fb, r⟩ := p
    simp only [h1] at h
    cases h2 : splitAtByte eqByte fb with
    | none => simp only [h2] at h; exact FieldResult.noConfusion h
    | some q =>
      obtain ⟨tb, val⟩ := q
      simp only [h2] at h
      by_cases hc : (tb.isEmpty || !tb.all isDigitByte) = true
      · rw [if_pos hc] at h; simp at h
      · rw [if_neg hc] at h
        injection h with ha hb hr
        subst hr
        exact splitAtByte_length h1

theorem fieldBytes_length (t : Nat) (v : List Nat) :
    (fieldBytes t v).length = (natToDigits t).length + v.length + 2 := by
  simp [fieldBytes]
  omega

theorem encodeFields_cons (f : Field) (fs : List Field) :
    encodeFields (f :: fs) = fieldBytes f.tag f.value ++ encodeFields fs := by
  simp [encodeFields]

theorem parseFieldsAux_encode (fs : List Field) (hfs : ∀ f ∈ fs, ValidField f) :
    ∀ fuel : Nat, (encodeFields fs).length ≤ fuel →
      parseFieldsAux fuel (encodeFields fs) = some fs := by
  induction fs with
  | nil =>
    intro fuel hfuel
    cases fuel <;> simp [parseFieldsAux, encodeFields]
  | cons f fs ih =>
    intro fuel hfuel
    have hf : ValidField f := hfs f (List.mem_cons_self f fs)
    have hlen : 2 ≤ (fieldBytes f.tag f.value).length := by
      rw [fieldBytes_length]; omega
    rw [encodeFields_cons] at hfuel ⊢
    have htot : (fieldBytes f.tag f.value).length + (encodeFields fs).length ≤ fuel := by
      simpa [List.length_append] using hfuel
    cases fuel with
    | zero => omega
    | succ k =>
      have hemp : ((fieldBytes f.tag f.value) ++ encodeFields fs).isEmpty = false := by
        rw [List.isEmpty_eq_false]
        intro hcontra
        have h0 := congrArg List.length hcontra
        rw [List.length_append, List.length_nil] at h0
        omega
      simp only [parseFieldsAux, hemp, Bool.false_eq_true, if_false,
        parseField_bytes f.tag f.value _ hf.1 hf.2,
        ih (fun g hg => hfs g (List.mem_cons_of_mem f hg)) k (by omega)]

theorem parseFields_encode (fs : List Field) (hfs : ∀ f ∈ fs, ValidField f) :
    parseFields (encodeFields fs) = some fs :=
  parseFieldsAux_encode fs hfs _ le_rfl

theorem bodyBytes_eq_encode (m : Message) :
    bodyBytes m = encodeFields (⟨35, m.msgType⟩ :: m.fields) := by
  simp [bodyBytes, encodeFields]

theorem beginString_no_soh (v : FIXVersion) : sohByte ∉ beginString v := by
  cases v <;> decide

theorem versionOf_beginString (v : FIXVersion) :
    versionOfBeginString (beginString v) = some v := by
  cases v <;> rfl

theorem checksum3_digits {c : Nat} (hc : c < 1000) :
    ∀ d ∈ checksum3 c, 48 ≤ d ∧ d ≤ 57 := by
  intro d hd
  simp only [checksum3, List.mem_cons, List.not_mem_nil, or_false] at hd
  have h1 : c / 100 < 10 := by omega
  have h2 : c / 10 % 10 < 10 := Nat.mod_lt _ (by omega)
  have h3 : c % 10 < 10 := Nat.mod_lt _ (by omega)
  rcases hd with rfl | rfl | rfl <;> omega

theorem checksum3_no_soh {c : Nat} (hc : c < 1000) : sohByte ∉ checksum3 c := by
  intro h
  have := checksum3_digits hc _ h
  simp [sohByte] at this

theorem checksum3_all_isDigit {c : Nat} (hc : c < 1000) :
    (checksum3 c).all isDigitByte = true := by
  rw [List.all_eq_true]
  intro d hd
  have := checksum3_digits hc d hd
  simp [isDigitByte]
  omega

theorem digitsToNat_checksum3 {c : Nat} (hc : c < 1000) :
    digitsToNat (checksum3 c) = c := by
  simp [digitsToNat, checksum3, List.foldl]
  omega

/-- Decoding one message from the head of its own serialization (followed by
arbitrary further bytes) succeeds and reproduces the message field-for-field
when its type token is in the dictionary, and reports the raw token as an
unknown-message-type error otherwise. -/
theorem parseOnce_serialize (dict : List (List Nat)) (v : FIXVersion) (mv : MessageVersion)
    (m : Message) (extra : List Nat) (hm : ValidMessage m) :
    parseOnce dict (serialize v mv m ++ extra)
      = if m.msgType ∈ dict then .msg v m extra
        else .err (.unknownMessageType m.msgType) := by
  obtain ⟨hmt, hfs⟩ := hm
  have hbpos : 0 < (bodyBytes m).length := by
    rw [bodyBytes_eq_encode, encodeFields_cons, List.length_append, fieldBytes_length]
    omega
  have hser : serialize v mv m ++ extra
      = fieldBytes 8 (beginString v)
        ++ (fieldBytes 9 (natToDigits (bodyBytes m).length)
        ++ (bodyBytes m
        ++ (fieldBytes 10 (checksum3 (sumBytes ((fieldBytes 8 (beginString v)
              ++ fieldBytes 9 (natToDigits (bodyBytes m).length)) ++ bodyBytes m) % 256))
        ++ extra))) := by
    simp [serialize, List.append_assoc]
  rw [hser]
  set B := bodyBytes m with hB
  set f8 := fieldBytes 8 (beginString v) with hf8
  set f9 := fieldBytes 9 (natToDigits B.length) with hf9
  set cks := sumBytes ((f8 ++ f9) ++ B) % 256 with hcks
  set f10 := fieldBytes 10 (checksum3 cks) with hf10
  have hck_lt : cks < 1000 := by rw [hcks]; omega
  have h1 : parseField (f8 ++ (f9 ++ (B ++ (f10 ++ extra))))
      = .ok 8 (beginString v) (f9 ++ (B ++ (f10 ++ extra))) := by
    rw [hf8]; exact parseField_bytes _ _ _ (by omega) (beginString_no_soh v)
  have h2 : versionOfBeginString (beginString v) = some v := versionOf_beginString v
  have h3 : parseField (f9 ++ (B ++ (f10 ++ extra)))
      = .ok 9 (natToDigits B.length) (B ++ (f10 ++ extra)) := by
    rw [hf9]; exact parseField_bytes _ _ _ (by omega) sohByte_not_mem_natToDigits
  have h4 : (natToDigits B.length).isEmpty = false :=
    List.isEmpty_eq_false.mpr (natToDigits_ne_nil hbpos)
  have h5 : (natToDigits B.length).all isDigitByte = true := natToDigits_all_isDigit _
  have h6 : digitsToNat (natToDigits B.length) = B.length := digitsToNat_natToDigits _
  have h7 : ¬ ((B ++ (f10 ++ extra)).length < B.length) := by
    simp [List.length_append]
  have h8 : (B ++ (f10 ++ extra)).take B.length = B := List.take_left _ _
  have h9 : (B ++ (f10 ++ extra)).drop B.length = f10 ++ extra := List.drop_left _ _
  have h10 : parseField (f10 ++ extra) = .ok 10 (checksum3 cks) extra := by
    rw [hf10]; exact parseField_bytes _ _ _ (by omega) (checksum3_no_soh hck_lt)
  have h12 : sumBytes ((f8 ++ (f9 ++ (B ++ (f10 ++ extra)))).take
      ((f8 ++ (f9 ++ (B ++ (f10 ++ extra)))).length - (f10 ++ extra).length)) % 256 = cks := by
    have hassoc : f8 ++ (f9 ++ (B ++ (f10 ++ extra))) = ((f8 ++ f9) ++ B) ++ (f10 ++ extra) := by
      simp [List.append_assoc]
    rw [hassoc]
    have hlen : (((f8 ++ f9) ++ B) ++ (f10 ++ extra)).length - (f10 ++ extra).length
        = ((f8 ++ f9) ++ B).length := by
      simp [List.length_append]
      omega
    rw [hlen, List.take_left]
    try exact hcks.symm
  have h13 : digitsToNat (checksum3 cks) = cks := digitsToNat_checksum3 hck_lt
  have h14 : parseFields B = some (⟨35, m.msgType⟩ :: m.fields) := by
    rw [hB, bodyBytes_eq_encode]
    refine parseFields_encode _ ?_
    intro g hg
    rcases List.mem_cons.mp hg with rfl | hg2
    · exact ⟨Nat.succ_pos 34, hmt⟩
    · exact hfs g hg2
  simp only [parseOnce, h1, h2, h3, h4, h5, h6, h7, h8, h9, h10, h12, h13, h14]
  have hd1 : isDigitByte (cks / 100 + 48) = true := by
    have hx : cks / 100 < 10 := by omega
    simp only [isDigitByte, Bool.and_eq_true, decide_eq_true_eq]
    omega
  have hd2 : isDigitByte (cks / 10 % 10 + 48) = true := by
    have hx : cks / 10 % 10 < 10 := Nat.mod_lt _ (by omega)
    simp only [isDigitByte, Bool.and_eq_true, decide_eq_true_eq]
    omega
  have hd3 : isDigitByte (cks % 10 + 48) = true := by
    have hx : cks % 10 < 10 := Nat.mod_lt _ (by omega)
    simp only [isDigitByte, Bool.and_eq_true, decide_eq_true_eq]
    omega
  simp [checksum3, hd1, hd2, hd3]

theorem parseLoop_nil (dict : List (List Nat)) (fuel : Nat) :
    parseLoop dict fuel [] = ([], [], none) := by
  cases fuel with
  | zero => rfl
  | succ k => rfl

theorem parseLoop_msg (dict : List (List Nat)) (fuel : Nat) (input : List Nat)
    (v : FIXVersion) (m : Message) (rest : List Nat)
    (hp : parseOnce dict input = .msg v m rest) :
    parseLoop dict (fuel + 1) input
      = (m :: (parseLoop dict fuel rest).1,
         (parseLoop dict fuel rest).2.1, (parseLoop dict fuel rest).2.2) := by
  simp only [parseLoop, hp]

theorem parseLoop_err (dict : List (List Nat)) (fuel : Nat) (input : List Nat)
    (e : ParseError) (hp : parseOnce dict input = .err e) :
    parseLoop dict (fuel + 1) input = ([], input, some e) := by
  simp only [parseLoop, hp]

/-- Claim C1: serializing a supported message with a valid field set (as
`send_message_with_timeout` does via `message.read`) and feeding the bytes
to the parser (as `try_recv_fixt_message` does via `parser.parse`) appends
to the ready-queue a decoded message equal in every field to the original,
for every declared FIX-version/message-version combination, consuming all
the bytes without error. -/
theorem parse_serialize_roundtrip (st : Parser) (v : FIXVersion) (mv : MessageVersion)
    (m : Message) (hbuf : st.buffer = []) (hm : ValidMessage m) (hd : m.msgType ∈ st.dict) :
    Parser.parse st (serialize v mv m)
      = ({ st with buffer := [], messages := st.messages ++ [m] },
         (serialize v mv m).length, none) := by
  have hp : parseOnce st.dict (serialize v mv m) = .msg v m [] := by
    have h := parseOnce_serialize st.dict v mv m [] hm
    rw [List.append_nil, if_pos hd] at h
    exact h
  unfold Parser.parse
  rw [hbuf]
  simp only [List.nil_append]
  rw [parseLoop_msg st.dict (serialize v mv m).length (serialize v mv m) v m [] hp,
    parseLoop_nil]
  simp

/-- Witness for C1 at a concrete message, version pair and parser. -/
theorem parse_serialize_roundtrip_witness :
    Parser.parse sampleParser (serialize .FIXT_1_1 .FIX50SP2 sampleMessage)
      = ({ sampleParser with buffer := [], messages := sampleParser.messages ++ [sampleMessage] },
         (serialize .FIXT_1_1 .FIX50SP2 sampleMessage).length, none) :=
  parse_serialize_roundtrip sampleParser .FIXT_1_1 .FIX50SP2 sampleMessage rfl
    (by decide) (by decide)

/-- Claim C7: whenever `parse` returns a non-error result on a chunk, the
`bytes_consumed` it reports equals the chunk's length (incomplete suffixes
are buffered internally), so `assert_eq!(bytes_parsed, bytes_read)` in
`try_recv_fixt_message` never fails. -/
theorem parse_ok_consumes_whole_chunk (st : Parser) (input : List Nat)
    (h : (Parser.parse st input).2.2 = none) :
    (Parser.parse st input).2.1 = input.length := by
  unfold Parser.parse at h ⊢
  cases hL : parseLoop st.dict ((st.buffer ++ input).length + 1) (st.buffer ++ input) with
  | mk ms rest2 =>
    obtain ⟨leftover, e⟩ := rest2
    cases e with
    | none =>
      simp only [hL] at h ⊢
      simp only [List.length_append]
      omega
    | some e =>
      simp only [hL] at h
      exact Option.noConfusion h

/-- Witness for C7 on a concrete incomplete chunk. -/
theorem parse_ok_consumes_whole_chunk_witness :
    (Parser.parse sampleParser [56]).2.1 = [56].length :=
  parse_ok_consumes_whole_chunk sampleParser [56] (by decide)

/-- Claim C8: every call to `try_recv_fixt_message` removes and returns
the front element of the parser's ready-queue — immediately and without
reading the socket when the queue is already non-empty, and likewise after
the read-and-parse step fills the queue — so successive calls yield the
decoded messages in exact FIFO order. -/
theorem try_recv_pops_ready_queue_front :
    (∀ (st : Parser) (m : Message) (ms : List Message) (chunks : List Chunk),
        st.messages = m :: ms →
        tryRecvFixtMessage st chunks = (some m, { st with messages := ms }, chunks))
      ∧ (∀ (st st2 : Parser) (n : Nat) (c : Chunk) (rest : List Chunk)
            (m : Message) (ms : List Message),
          st.messages = [] → Parser.parse st c = (st2, n, none) →
          st2.messages = m :: ms →
          tryRecvFixtMessage st (c :: rest) = (some m, { st2 with messages := ms }, rest)) := by
  constructor
  · intro st m ms chunks h
    unfold tryRecvFixtMessage
    rw [h]
  · intro st st2 n c rest m ms hq hp h2
    unfold tryRecvFixtMessage
    rw [hq]
    unfold tryRecvAux
    simp only [hp, h2]

/-- Witness for C8: the queued-parser case and the read-loop case, both at
concrete inputs. -/
theorem try_recv_pops_ready_queue_front_witness :
    tryRecvFixtMessage queuedParser []
        = (some msgA, { queuedParser with messages := [msgB] }, [])
      ∧ tryRecvFixtMessage sampleParser [serialize .FIXT_1_1 .FIX50SP2 sampleMessage]
          = (some sampleMessage,
             { dict := sampleDict, buffer := [], messages := ([] : List Message) }, []) := by
  have h := try_recv_pops_ready_queue_front
  exact ⟨h.1 queuedParser msgA [msgB] [] rfl,
    h.2 sampleParser ⟨sampleDict, [], [sampleMessage]⟩ 39
      (serialize .FIXT_1_1 .FIX50SP2 sampleMessage) [] sampleMessage [] rfl (by decide) rfl⟩

/-- Claim C10: when a `parse` call inside `try_recv_fixt_message` reports an
error, the function returns `None` at once — even if that call queued
decoded messages — and those queued messages are returned, in order, by
subsequent calls, which consult the ready-queue before reading the
socket. -/
theorem try_recv_error_returns_none_keeps_queue
    (st st2 : Parser) (n : Nat) (e : ParseError) (c : Chunk) (rest : List Chunk)
    (hq : st.messages = [])
    (hp : Parser.parse st c = (st2, n, some e)) :
    tryRecvFixtMessage st (c :: rest) = (none, st2, rest)
      ∧ ∀ (m : Message) (ms : List Message) (rest2 : List Chunk),
          st2.messages = m :: ms →
          tryRecvFixtMessage st2 rest2 = (some m, { st2 with messages := ms }, rest2) := by
  constructor
  · unfold tryRecvFixtMessage
    rw [hq]
    unfold tryRecvAux
    simp only [hp]
  · intro m ms rest2 h2
    unfold tryRecvFixtMessage
    rw [h2]

/-- Witness for C10: a chunk holding one valid message followed by garbled
bytes yields `None` but queues the message, which the next call returns. -/
theorem try_recv_error_returns_none_keeps_queue_witness :
    tryRecvFixtMessage sampleParser [sampleChunk] = (none, sampleParserAfterError, [])
      ∧ tryRecvFixtMessage sampleParserAfterError []
          = (some sampleMessage, { sampleParserAfterError with messages := [] }, []) := by
  have h := try_recv_error_returns_none_keeps_queue sampleParser sampleParserAfterError
    39 .garbled sampleChunk [] rfl (by decide)
  exact ⟨h.1, h.2 sampleMessage [] [] rfl⟩

/-- Counterexample for claim C3: `message_to_enum` does panic (modelled as `none`,
the `panic!("Unsupported message")` fallback) on a message whose concrete
type is not among the declared types — here a `Heartbeat` against a
dictionary declaring only `Logon`. -/
theorem message_to_enum_undeclared_panics :
    message_to_enum ["Logon"] ⟨"Heartbeat", []⟩ = none := by decide

/-- Amended claim C3: a decoded message whose type token is unknown to the
dictionary is reported recoverably as `ParseError::UnknownMessageType`
carrying the raw token; but `message_to_enum`, applied to a message whose
concrete type is not among the declared types, reaches its
`panic!("Unsupported message")` fallback. -/
theorem unknown_message_type_handling :
    (∀ (declared : List String) (msg : MsgBox),
        msg.concreteType ∉ declared → message_to_enum declared msg = none)
      ∧ (∀ (st : Parser) (v : FIXVersion) (mv : MessageVersion) (m : Message),
          st.buffer = [] → ValidMessage m → m.msgType ∉ st.dict →
          (Parser.parse st (serialize v mv m)).2.2
            = some (ParseError.unknownMessageType m.msgType)) := by
  constructor
  · intro declared msg h
    induction declared with
    | nil => rfl
    | cons t ts ih =>
      simp only [List.mem_cons, not_or] at h
      simp only [message_to_enum, if_neg h.1, ih h.2]
  · intro st v mv m hbuf hm hd
    have hp : parseOnce st.dict (serialize v mv m)
        = .err (.unknownMessageType m.msgType) := by
      have h := parseOnce_serialize st.dict v mv m [] hm
      rw [List.append_nil, if_neg hd] at h
      exact h
    unfold Parser.parse
    rw [hbuf]
    simp only [List.nil_append]
    rw [parseLoop_err st.dict (serialize v mv m).length (serialize v mv m) _ hp]

/-- Witness for the amended C3 at concrete inputs. -/
theorem unknown_message_type_handling_witness :
    message_to_enum ["Logon"] ⟨"TestRequest", []⟩ = none
      ∧ (Parser.parse otherDictParser (serialize .FIXT_1_1 .FIX50SP2 sampleMessage)).2.2
          = some (ParseError.unknownMessageType sampleMessage.msgType) := by
  have h := unknown_message_type_handling
  exact ⟨h.1 ["Logon"] ⟨"TestRequest", []⟩ (by decide),
    h.2 otherDictParser .FIXT_1_1 .FIX50SP2 sampleMessage rfl (by decide) (by decide)⟩

/-- Claim C2: evaluating the code's token set at the claim's reference tokens:
the two-character tokens "CA" through "CG" should all be present, but
"CE" is absent — the source inserts `b"CD"` twice (lines 139-140 of
`src/dictionary/mod.rs`) where the second insert should be `b"CE"`. -/
theorem standard_msg_types_missing_CE :
    "CE" ∉ standard_msg_types
      ∧ "CA" ∈ standard_msg_types
      ∧ "CB" ∈ standard_msg_types
      ∧ "CC" ∈ standard_msg_types
      ∧ "CD" ∈ standard_msg_types
      ∧ "CF" ∈ standard_msg_types
      ∧ "CG" ∈ standard_msg_types
      ∧ standard_msg_types.count "CD" = 2 := by decide

/-- Claim C9: `new_logon_message()` returns a Logon with `heart_bt_int = 5`,
`encrypt_method = None`, `default_appl_ver_id = FIX50SP2`, and a FIXT
session header carrying sequence number 1, sender comp id "TX" and target
comp id "TEST". -/
theorem new_logon_message_fields :
    new_logon_message.heart_bt_int = 5
      ∧ new_logon_message.encrypt_method = EncryptMethod.None
      ∧ new_logon_message.default_appl_ver_id = MessageVersion.FIX50SP2
      ∧ new_logon_message.msg_seq_num = 1
      ∧ new_logon_message.sender_comp_id = [84, 88]
      ∧ new_logon_message.target_comp_id = [84, 69, 83, 84] := by decide

theorem sendLoop_result_spec (total : Nat) (steps : List SendStep) :
    ∀ w : Nat,
      ((sendLoop total steps w).1 = some (Except.ok ()) → total ≤ (sendLoop total steps w).2)
        ∧ (∀ k : Nat, (sendLoop total steps w).1 = some (Except.error k) →
            (sendLoop total steps w).2 < total ∧ k = total - (sendLoop total steps w).2) := by
  induction steps with
  | nil =>
    intro w
    constructor
    · intro h
      simp only [sendLoop] at h ⊢
      by_cases hw : total ≤ w
      · exact hw
      · rw [if_neg hw] at h
        exact Option.noConfusion h
    · intro k h
      simp only [sendLoop] at h
      by_cases hw : total ≤ w
      · rw [if_pos hw] at h
        simp at h
      · rw [if_neg hw] at h
        exact Option.noConfusion h
  | cons s rest ih =>
    intro w
    by_cases hw : total ≤ w
    · constructor
      · intro h
        simp only [sendLoop, if_pos hw]
        exact hw
      · intro k h
        simp only [sendLoop, if_pos hw] at h
        simp at h
    · by_cases ht : s.timedOut = true
      · constructor
        · intro h
          simp only [sendLoop, if_neg hw, ht, if_true] at h
          simp at h
        · intro k h
          simp only [sendLoop, if_neg hw, ht, if_true] at h ⊢
          simp only [Option.some.injEq, Except.error.injEq] at h
          omega
      · have ht2 : s.timedOut = false := by
          cases hx : s.timedOut
          · rfl
          · exact absurd hx ht
        cases hwr : s.write with
        | wrote n =>
          constructor
          · intro h
            simp only [sendLoop, if_neg hw, ht2, Bool.false_eq_true, if_false, hwr] at h ⊢
            exact (ih (w + n)).1 h
          · intro k h
            simp only [sendLoop, if_neg hw, ht2, Bool.false_eq_true, if_false, hwr] at h ⊢
            exact (ih (w + n)).2 k h
        | wouldBlock =>
          constructor
          · intro h
            simp only [sendLoop, if_neg hw, ht2, Bool.false_eq_true, if_false, hwr] at h ⊢
            exact (ih w).1 h
          · intro k h
            simp only [sendLoop, if_neg hw, ht2, Bool.false_eq_true, if_false, hwr] at h ⊢
            exact (ih w).2 k h
        | fatal =>
          constructor
          · intro h
            simp only [sendLoop, if_neg hw, ht2, Bool.false_eq_true, if_false, hwr] at h
            exact Option.noConfusion h
          · intro k h
            simp only [sendLoop, if_neg hw, ht2, Bool.false_eq_true, if_false, hwr] at h
            exact Option.noConfusion h

/-- Claim C6: `send_message_with_timeout` returns `Ok(())` only when every
serialized byte was written, and an `Err` result always reports exactly the
number of serialized bytes not yet written, with some bytes unwritten; a
write that returns `WouldBlock` is retried (the loop continues with the
same counter); and when the timeout has elapsed with bytes still unwritten
the loop returns `Err(total - written)` at once. -/
theorem send_message_with_timeout_spec (v : FIXVersion) (mv : MessageVersion) (m : Message) :
    (∀ steps : List SendStep,
        (send_message_with_timeout v mv m steps).1 = some (Except.ok ()) →
        (serialize v mv m).length ≤ (send_message_with_timeout v mv m steps).2)
      ∧ (∀ (steps : List SendStep) (k : Nat),
          (send_message_with_timeout v mv m steps).1 = some (Except.error k) →
          (send_message_with_timeout v mv m steps).2 < (serialize v mv m).length
            ∧ k = (serialize v mv m).length - (send_message_with_timeout v mv m steps).2)
      ∧ (∀ (total : Nat) (s : SendStep) (rest : List SendStep) (w : Nat),
          s.timedOut = false → s.write = WriteResult.wouldBlock → ¬ total ≤ w →
          sendLoop total (s :: rest) w = sendLoop total rest w)
      ∧ (∀ (total : Nat) (s : SendStep) (rest : List SendStep) (w : Nat),
          s.timedOut = true → ¬ total ≤ w →
          sendLoop total (s :: rest) w = (some (Except.error (total - w)), w)) := by
  refine ⟨?_, ?_, ?_, ?_⟩
  · intro steps h
    exact (sendLoop_result_spec _ steps 0).1 h
  · intro steps k h
    exact (sendLoop_result_spec _ steps 0).2 k h
  · intro total s rest w ht hwr hw
    simp only [sendLoop, if_neg hw, ht, Bool.false_eq_true, if_false, hwr]
  · intro total s rest w ht hw
    simp only [sendLoop, if_neg hw, ht, if_true]

/-- Witness for C6: all four conjuncts at concrete traces over the sample
message (whose serialization is 39 bytes long). -/
theorem send_message_with_timeout_spec_witness :
    ((serialize FIXVersion.FIXT_1_1 MessageVersion.FIX50SP2 sampleMessage).length
        ≤ (send_message_with_timeout FIXVersion.FIXT_1_1 MessageVersion.FIX50SP2 sampleMessage
            [⟨false, WriteResult.wouldBlock⟩, ⟨false, WriteResult.wrote 39⟩]).2)
      ∧ ((send_message_with_timeout FIXVersion.FIXT_1_1 MessageVersion.FIX50SP2 sampleMessage
            [⟨false, WriteResult.wrote 20⟩, ⟨true, WriteResult.wouldBlock⟩]).2
              < (serialize FIXVersion.FIXT_1_1 MessageVersion.FIX50SP2 sampleMessage).length
          ∧ 19 = (serialize FIXVersion.FIXT_1_1 MessageVersion.FIX50SP2 sampleMessage).length
              - (send_message_with_timeout FIXVersion.FIXT_1_1 MessageVersion.FIX50SP2
                  sampleMessage [⟨false, WriteResult.wrote 20⟩, ⟨true, WriteResult.wouldBlock⟩]).2)
      ∧ sendLoop 5 [⟨false, WriteResult.wouldBlock⟩] 0 = sendLoop 5 [] 0
      ∧ sendLoop 5 [⟨true, WriteResult.wouldBlock⟩, ⟨false, WriteResult.wrote 3⟩] 2
          = (some (Except.error 3), 2) := by
  have h := send_message_with_timeout_spec FIXVersion.FIXT_1_1 MessageVersion.FIX50SP2
    sampleMessage
  refine ⟨h.1 _ (by rfl), h.2.1 _ 19 (by rfl), ?_, ?_⟩
  · exact h.2.2.1 5 ⟨false, WriteResult.wouldBlock⟩ [] 0 rfl rfl (by omega)
  · exact h.2.2.2 5 ⟨true, WriteResult.wouldBlock⟩ [⟨false, WriteResult.wrote 3⟩] 2 rfl (by omega)

theorem insertMap_fresh {α β : Type} [DecidableEq α] (acc : List (α × β)) (k : α) (v : β)
    (h : k ∉ acc.map Prod.fst) : insertMap acc k v = acc ++ [(k, v)] := by
  induction acc with
  | nil => rfl
  | cons kv rest ih =>
    simp only [List.map_cons, List.mem_cons, not_or] at h
    have hne : ¬ kv.1 = k := fun hx => h.1 hx.symm
    simp only [insertMap, if_neg hne, List.cons_append, ih h.2]

theorem cloneFold (d : List (List Nat × MsgBox)) :
    ∀ acc : List (List Nat × MsgBox),
      (d.map Prod.fst).Nodup →
      (∀ k ∈ d.map Prod.fst, k ∉ acc.map Prod.fst) →
      d.foldl (fun acc kv => insertMap acc kv.1 (new_into_box kv.2)) acc
        = acc ++ d.map fun kv => (kv.1, new_into_box kv.2) := by
  induction d with
  | nil => intro acc _ _; simp
  | cons kv ds ih =>
    intro acc hnodup hdisj
    simp only [List.map_cons, List.nodup_cons] at hnodup
    simp only [List.foldl_cons]
    rw [insertMap_fresh acc kv.1 (new_into_box kv.2) (hdisj kv.1 (by simp))]
    rw [ih (acc ++ [(kv.1, new_into_box kv.2)]) hnodup.2 ?hdisj2]
    · simp
    case hdisj2 =>
      intro k hk
      simp only [List.map_append, List.mem_append, not_or]
      constructor
      · exact hdisj k (List.mem_cons_of_mem _ hk)
      · simp only [List.map_cons, List.map_nil, List.mem_singleton]
        intro he
        exact hnodup.1 (he ▸ hk)

theorem cloneDictionary_eq_map (d : List (List Nat × MsgBox))
    (hnodup : (d.map Prod.fst).Nodup) :
    cloneDictionary d = d.map fun kv => (kv.1, new_into_box kv.2) := by
  have h := cloneFold d [] hnodup (by simp)
  simpa [cloneDictionary] using h

theorem lookupMap_map_value {α β : Type} [DecidableEq α] (d : List (α × β)) (g : β → β)
    (k : α) :
    lookupMap (d.map fun kv => (kv.1, g kv.2)) k = (lookupMap d k).map g := by
  induction d with
  | nil => rfl
  | cons kv rest ih =>
    simp only [List.map_cons, lookupMap]
    by_cases h : kv.1 = k
    · simp [h]
    · simp [h, ih]

/-- Claim C4: `CloneDictionary::clone` takes the dictionary by shared reference
and leaves it unchanged; the returned map has exactly the original's key
set, and each key maps to a freshly constructed default instance
(`new_into_box` of the original entry, with empty field state) rather than
an alias of the original boxed entry. -/
theorem clone_dictionary_spec (d : List (List Nat × MsgBox))
    (hnodup : (d.map Prod.fst).Nodup) :
    (cloneCall d).1 = d
      ∧ (cloneDictionary d).map Prod.fst = d.map Prod.fst
      ∧ (∀ tok : List Nat,
          lookupMap (cloneDictionary d) tok = (lookupMap d tok).map new_into_box)
      ∧ (∀ kv ∈ cloneDictionary d, kv.2.state = []) := by
  refine ⟨rfl, ?_, ?_, ?_⟩
  · rw [cloneDictionary_eq_map d hnodup]
    simp
  · intro tok
    rw [cloneDictionary_eq_map d hnodup, lookupMap_map_value]
  · intro kv hkv
    rw [cloneDictionary_eq_map d hnodup] at hkv
    obtain ⟨kv0, _, rfl⟩ := List.mem_map.mp hkv
    rfl

/-- Witness for C4 on a concrete two-entry dictionary. -/
theorem clone_dictionary_spec_witness :
    (cloneCall sampleBoxDict).1 = sampleBoxDict
      ∧ lookupMap (cloneDictionary sampleBoxDict) [65]
          = (lookupMap sampleBoxDict [65]).map new_into_box := by
  have h := clone_dictionary_spec sampleBoxDict (by decide)
  exact ⟨h.1, h.2.2.1 [65]⟩

theorem lookupMap_insertMap {α β : Type} [DecidableEq α] (mp : List (α × β)) (k k' : α)
    (v : β) :
    lookupMap (insertMap mp k v) k' = if k = k' then some v else lookupMap mp k' := by
  induction mp with
  | nil => simp only [insertMap, lookupMap]
  | cons kv rest ih =>
    by_cases h1 : kv.1 = k
    · by_cases h2 : k = k'
      · simp [insertMap, lookupMap, h1, h2]
      · have h3 : ¬ kv.1 = k' := by rw [h1]; exact h2
        simp [insertMap, lookupMap, h1, h2, h3]
    · by_cases h4 : kv.1 = k'
      · have h5 : ¬ k = k' := fun he => h1 (he ▸ h4)
        have h6 : ¬ k' = k := fun he => h5 he.symm
        simp [insertMap, lookupMap, h1, h4, h5, h6]
      · simp [insertMap, lookupMap, h1, h4, ih]

/-- Claim C5: the `build_dictionary()` generated by `define_dictionary!` maps
each declared type's `msg_type()` token to a default-constructed prototype
of that type; when several declared types share a token, the map holds the
prototype of the last such declaration (later inserts overwrite), and
tokens of no declared type are absent. -/
theorem build_dictionary_lookup (decls : List MsgDecl) (tok : List Nat) :
    lookupMap (build_dictionary decls) tok
      = (decls.reverse.find? fun d => d.msgTypeTok == tok).map defaultBox := by
  suffices h : ∀ acc : List (List Nat × MsgBox),
      lookupMap (decls.foldl (fun acc d => insertMap acc d.msgTypeTok (defaultBox d)) acc) tok
        = ((decls.reverse.find? fun d => d.msgTypeTok == tok).map defaultBox).or
            (lookupMap acc tok) by
    have h2 := h []
    simpa [build_dictionary, lookupMap] using h2
  induction decls with
  | nil =>
    intro acc
    simp [List.find?]
  | cons dd ds ih =>
    intro acc
    simp only [List.foldl_cons, List.reverse_cons, List.find?_append]
    rw [ih, lookupMap_insertMap]
    cases hf : ds.reverse.find? fun d => d.msgTypeTok == tok with
    | some d0 => simp
    | none =>
      by_cases hd : dd.msgTypeTok = tok
      · simp [List.find?, hd]
      · have hb : (dd.msgTypeTok == tok) = false := by simp [hd]
        simp [List.find?, hb, hd]

end FixRs
